import Mathlib

/-!
Verification of the minimizer abstraction and contour engine of
`threeML/minimizer/minimization.py` (class `MinuitMinimizer` and class
`ContourWorker`), as a shallow embedding.

Modelling conventions:
* Python floats are embedded as `PFloat`: either a rational value or the
  not-a-number placeholder `nan` used by `contours` for a missing second axis.
* Parameter values, tolerances and EDM are rationals.
* Python dicts keyed by strings are embedded as functions `String → Option _`
  (assignment overrides), and the iminuit `values` mapping as an association
  list so it can be iterated in insertion order.
* Fallible Python code is embedded in `Except PyError`; `PyError.typeError`
  stands for the `TypeError` raised when `None` is subscripted,
  `PyError.keyError` for `KeyError`/`IndexError`-style lookups.
* The external iminuit engine is a black box: a `MainEngine` (resp.
  `WorkerEngine`) supplies the behaviour of `migrad`/`hesse`/`minos` on the
  observable engine state; the wrapper code under verification is embedded
  faithfully on top of it.
-/

/-- Embedding of a Python float: a rational value or the `numpy.nan`
placeholder used by `contours` when no second parameter is scanned. -/
inductive PFloat where
  | val : ℚ → PFloat
  | nan : PFloat
deriving DecidableEq

/-- Source line 30: `FIT_FAILED = 1e12`. -/
def FIT_FAILED : PFloat := PFloat.val (10 ^ 12)

/-- Exceptions that the embedded code can raise.  `typeError` models the
`TypeError` from subscripting `None`; `keyError` and `indexError` model
dict/list lookup failures; `engineError` models an exception propagating out
of the external engine; the remaining constructors embed the custom exception
classes of source lines 35-48. -/
inductive PyError where
  | typeError
  | keyError
  | indexError
  | engineError
  | cannotComputeCovariance
  | cannotComputeErrors
  | minosFailed
  | parameterIsNotFree
deriving DecidableEq

instance {ε α : Type} [DecidableEq ε] [DecidableEq α] : DecidableEq (Except ε α) :=
  fun a b =>
    match a, b with
    | Except.error x, Except.error y =>
      if h : x = y then isTrue (by rw [h]) else isFalse (by intro hc; cases hc; exact h rfl)
    | Except.error _, Except.ok _ => isFalse (by intro hc; cases hc)
    | Except.ok _, Except.error _ => isFalse (by intro hc; cases hc)
    | Except.ok x, Except.ok y =>
      if h : x = y then isTrue (by rw [h]) else isFalse (by intro hc; cases hc; exact h rfl)

/-- Values stored in the keyword-argument dict handed to the `Minuit`
constructor: numbers (initial values, `errordef`, `print_level`), the
booleans of the `fix_*` keys, and the `(min, max)` tuples of the
`limit_*` keys. -/
inductive ArgVal where
  | num : PFloat → ArgVal
  | boolean : Bool → ArgVal
  | limits : Option ℚ → Option ℚ → ArgVal
deriving DecidableEq

/-- Embedding of a Python string-keyed dict. -/
abbrev ArgsDict := String → Option ArgVal

/-- Dict assignment `d[k] = v` (overrides any previous binding). -/
def dset (d : ArgsDict) (k : String) (v : ArgVal) : ArgsDict :=
  fun q => if q = k then some v else d q

/-- Lookup in an association list (embedding of reading a Python dict that is
also iterated in insertion order, such as `minuit.values`). -/
def lookupAssoc {κ α : Type} [DecidableEq κ] : List (κ × α) → κ → Option α
  | [], _ => none
  | p :: rest, k => if p.1 = k then some p.2 else lookupAssoc rest k

/-- Assignment `d[k] = v` on an association list: replaces the first binding
of `k`, or appends one. -/
def setAssoc {κ α : Type} [DecidableEq κ] : List (κ × α) → κ → α → List (κ × α)
  | [], k, v => [(k, v)]
  | p :: rest, k, v => if p.1 = k then (k, v) :: rest else p :: setAssoc rest k v

/-- The slice of an astromodels parameter that this code reads: scaled value,
step size `delta`, and the optional bounds (source lines 105-117). -/
structure Param where
  value : ℚ
  delta : ℚ
  minValue : Option ℚ
  maxValue : Option ℚ
deriving DecidableEq

/-- Source lines 188-197, `MinuitMinimizer._parameter_name_to_minuit_name`:
`parameter.replace(".", "_")`.  A single-character `str.replace` is exactly a
character-wise map. -/
def parameterNameToMinuitName (s : String) : String :=
  String.mk (s.data.map (fun c => if c = '.' then '_' else c))

/-- Source line 138: `self.name_to_position = {k: i for i, k in
enumerate(variable_names_for_iminuit)}` (a later duplicate key would win,
exactly as in the dict comprehension). -/
def buildNameToPosition (varNames : List String) : String → Option Nat :=
  varNames.enum.foldl (fun acc p => fun k => if k = p.2 then some p.1 else acc k)
    (fun _ => none)

/-- Source lines 105-108: the minuit-friendly names of the registry
parameters, in registry order. -/
def variableNamesForIminuit (parameters : List (String × Param)) : List String :=
  parameters.map (fun p => parameterNameToMinuitName p.1)

/-- Source lines 95-127: the keyword-argument dict built by
`MinuitMinimizer.__init__` for the `Minuit` constructor — per parameter the
initial value, `error_*`, `limit_*` and `fix_* = False` keys, then
`errordef = 0.5` and `print_level = verbosity`. -/
def iminuitInitParameters (parameters : List (String × Param)) (verbosity : ℚ) : ArgsDict :=
  let d := parameters.foldl
    (fun d kp =>
      let name := parameterNameToMinuitName kp.1
      let d := dset d name (ArgVal.num (PFloat.val kp.2.value))
      let d := dset d ("error_" ++ name) (ArgVal.num (PFloat.val kp.2.delta))
      let d := dset d ("limit_" ++ name) (ArgVal.limits kp.2.minValue kp.2.maxValue)
      dset d ("fix_" ++ name) (ArgVal.boolean false))
    (fun _ => none)
  let d := dset d "errordef" (ArgVal.num (PFloat.val 0.5))
  dset d "print_level" (ArgVal.num (PFloat.val verbosity))

/-- Observable state of the main iminuit engine instance: the `values` dict,
the `fitarg` dict, the MINOS `merrors` table, and the scalar attributes read
or set by the wrapper (`edm`, `fval`, `tol`, `up`, `strategy`). -/
structure EngineState where
  values : List (String × ℚ)
  fitarg : ArgsDict
  merrors : List ((String × Int) × ℚ)
  edm : ℚ
  fval : PFloat
  tol : ℚ
  up : ℚ
  strategyLevel : ℚ

/-- Behaviour of the external iminuit engine on the main minimizer instance,
treated as a black box: construction from the keyword arguments, one MIGRAD
pass, HESSE, and MINOS (which may raise). -/
structure MainEngine where
  mkEngine : (List PFloat → PFloat) → ArgsDict → EngineState
  migrad : EngineState → EngineState
  hesse : EngineState → EngineState
  minos : EngineState → Except Unit EngineState

/-- State of a `MinuitMinimizer` instance: the parameter registry, the
generated variable names and name-to-position dict, the compiled adapter
`_f` (called positionally), the engine state, and the result store. -/
structure MState where
  parameters : List (String × Param)
  varNames : List String
  nameToPosition : String → Option Nat
  f : List PFloat → PFloat
  minuit : EngineState
  bestFitParameters : Option (List (String × ℚ))
  functionMinimumValue : Option PFloat

/-- Source lines 89-167, `MinuitMinimizer.__init__`: build the init dict and
the name-to-position dict, construct the engine, set `tol = ftol`,
`up = 0.5` (the likelihood error definition; the `except AttributeError`
branch sets the same constant under the name `errordef`), `strategy = 0`,
and clear the result store. -/
def MinuitMinimizer.init (e : MainEngine) (f : List PFloat → PFloat)
    (parameters : List (String × Param)) (ftol verbosity : ℚ) : MState :=
  let names := variableNamesForIminuit parameters
  let args := iminuitInitParameters parameters verbosity
  let eng0 := e.mkEngine f args
  let eng1 := { eng0 with tol := ftol }
  let eng2 := { eng1 with up := 0.5 }
  let eng3 := { eng2 with strategyLevel := 0 }
  { parameters := parameters
    varNames := names
    nameToPosition := buildNameToPosition names
    f := f
    minuit := eng3
    bestFitParameters := none
    functionMinimumValue := none }

/-- Source lines 199-204, `MinuitMinimizer._migrad_has_converged`:
`self.minuit.edm <= 0.002 * self.minuit.tol * 0.5`. -/
def migradHasConverged (edm tol : ℚ) : Prop :=
  edm ≤ 0.002 * tol * 0.5

instance (edm tol : ℚ) : Decidable (migradHasConverged edm tol) := by
  unfold migradHasConverged; infer_instance

/-- Source lines 206-222, `MinuitMinimizer._run_migrad`: run MIGRAD up to
`trials` times, stopping as soon as the convergence criterion holds.  The
second component counts the MIGRAD passes actually performed (ghost
instrumentation for the retry-budget claims). -/
def runMigrad (e : MainEngine) : Nat → EngineState → EngineState × Nat
  | 0, s => (s, 0)
  | Nat.succ n, s =>
    let s2 := e.migrad s
    if migradHasConverged s2.edm s2.tol then (s2, 1)
    else
      let r := runMigrad e n s2
      (r.1, r.2 + 1)

/-- Source lines 262-268 of `minimize`: collect `minuit.values[minuit_name]`
for every registry parameter, in registry order (a missing engine value would
be a Python `KeyError`). -/
def collectBestFit (values : List (String × ℚ)) :
    List (String × Param) → Except PyError (List (String × ℚ))
  | [] => Except.ok []
  | kp :: rest =>
    match lookupAssoc values (parameterNameToMinuitName kp.1) with
    | none => Except.error PyError.keyError
    | some v =>
      match collectBestFit values rest with
      | Except.error e => Except.error e
      | Except.ok r => Except.ok ((kp.1, v) :: r)

/-- Loop body of `_restore_best_fit` (source lines 231-237): write each best
fit value back into the registry parameter and into `minuit.values`. -/
def restoreLoop (best : List (String × ℚ)) :
    List (String × Param) → List (String × ℚ) →
    Except PyError (List (String × Param) × List (String × ℚ))
  | [], vals => Except.ok ([], vals)
  | p :: rest, vals =>
    match lookupAssoc best p.1 with
    | none => Except.error PyError.keyError
    | some v =>
      match restoreLoop best rest (setAssoc vals (parameterNameToMinuitName p.1) v) with
      | Except.error e => Except.error e
      | Except.ok r => Except.ok ((p.1, { p.2 with value := v }) :: r.1, r.2)

/-- Source lines 224-237, `MinuitMinimizer._restore_best_fit`.  When
`minimize()` has never stored a result, `self.best_fit_parameters` is `None`
and the first loop iteration subscripts `None` — a `TypeError` — so the
method only returns normally on an empty registry. -/
def MinuitMinimizer.restoreBestFit (m : MState) : Except PyError MState :=
  match m.bestFitParameters with
  | none =>
    if m.parameters.isEmpty then Except.ok m else Except.error PyError.typeError
  | some best =>
    match restoreLoop best m.parameters m.minuit.values with
    | Except.error e => Except.error e
    | Except.ok r =>
      Except.ok { m with parameters := r.1, minuit := { m.minuit with values := r.2 } }

/-- Source lines 239-281, `MinuitMinimizer.minimize`: run `_run_migrad(10)`;
on non-convergence return `(OrderedDict(), FIT_FAILED)` (the result store is
not touched); on convergence store the best-fit values and `minuit.fval`,
run HESSE, restore the best fit, and return the stored result. -/
def MinuitMinimizer.minimize (e : MainEngine) (m : MState) :
    Except PyError (MState × (List (String × ℚ) × PFloat)) :=
  let r := runMigrad e 10 m.minuit
  let m1 : MState := { m with minuit := r.1 }
  if ¬ migradHasConverged m1.minuit.edm m1.minuit.tol then
    Except.ok (m1, ([], FIT_FAILED))
  else
    match collectBestFit m1.minuit.values m1.parameters with
    | Except.error e => Except.error e
    | Except.ok best =>
      let m2 := { m1 with bestFitParameters := some best
                          functionMinimumValue := some m1.minuit.fval }
      let m3 := { m2 with minuit := e.hesse m2.minuit }
      match MinuitMinimizer.restoreBestFit m3 with
      | Except.error e => Except.error e
      | Except.ok m4 => Except.ok (m4, (best, m1.minuit.fval))

/-- Loop of `get_errors` over `minuit.merrors` (source lines 430-435). -/
def merrorsLoop (s : EngineState) :
    List (String × Param) → Except PyError (List (String × (ℚ × ℚ)))
  | [] => Except.ok []
  | p :: rest =>
    let name := parameterNameToMinuitName p.1
    match lookupAssoc s.merrors (name, (-1 : Int)), lookupAssoc s.merrors (name, (1 : Int)) with
    | some lo, some hi =>
      match merrorsLoop s rest with
      | Except.error e => Except.error e
      | Except.ok r => Except.ok ((p.1, (lo, hi)) :: r)
    | _, _ => Except.error PyError.keyError

/-- Source lines 398-491, `MinuitMinimizer.get_errors`: restore the best fit
(which raises before anything else if no fit was ever stored), raise
`CannotComputeErrors` when the engine state has not converged, run MINOS
(re-raising whatever it throws), collect the asymmetric errors, restore the
best fit again, and return the errors (the printed table is display-only and
elided). -/
def MinuitMinimizer.getErrors (e : MainEngine) (m : MState) :
    Except PyError (MState × List (String × (ℚ × ℚ))) :=
  match MinuitMinimizer.restoreBestFit m with
  | Except.error err => Except.error err
  | Except.ok m1 =>
    if ¬ migradHasConverged m1.minuit.edm m1.minuit.tol then
      Except.error PyError.cannotComputeErrors
    else
      match e.minos m1.minuit with
      | Except.error _ => Except.error PyError.engineError
      | Except.ok s2 =>
        let m2 := { m1 with minuit := s2 }
        match merrorsLoop m2.minuit m2.parameters with
        | Except.error err => Except.error err
        | Except.ok errors =>
          match MinuitMinimizer.restoreBestFit m2 with
          | Except.error err => Except.error err
          | Except.ok m3 => Except.ok (m3, errors)

/-- Observable configuration of a transient per-grid-point Minuit instance:
the function, the keyword arguments it was constructed with, and its `tol`
attribute. -/
structure ContourMinuitObj where
  f : List PFloat → PFloat
  args : ArgsDict
  tol : ℚ

/-- Behaviour of the external engine on a transient contour Minuit object:
one MIGRAD run, which may either raise (any exception) or finish in a state
with some `edm` and `fval`. -/
structure WorkerRunResult where
  edm : ℚ
  fval : PFloat

/-- Black-box MIGRAD behaviour for the per-grid-point engines. -/
structure WorkerEngine where
  migrad : ContourMinuitObj → Except Unit WorkerRunResult

/-- State of a `ContourWorker` (source lines 812-843).  `varNames` is the
argument-name list of `f`, which the engine probes from the generated
signature of `_f`. -/
structure ContourWorker where
  f : List PFloat → PFloat
  varNames : List String
  minuitArgs : ArgsDict
  minuitParam1 : String
  minuitParam2 : Option String
  nameToPosition : String → Option Nat

/-- Source lines 813-843, `ContourWorker.__init__`: copy the fit arguments,
overwrite them with the current `minuit.values`, force `errordef = 0.5` and
`print_level = 0`, and store the scanned parameter names and the
name-to-position dict. -/
def ContourWorker.init (function : List PFloat → PFloat) (varNames : List String)
    (minuitValues : List (String × ℚ)) (minuitArgs : ArgsDict)
    (minuitParam1 : String) (minuitParam2 : Option String)
    (nameToPosition : String → Option Nat) : ContourWorker :=
  let args := minuitValues.foldl (fun d kv => dset d kv.1 (ArgVal.num (PFloat.val kv.2))) minuitArgs
  let args := dset args "errordef" (ArgVal.num (PFloat.val 0.5))
  let args := dset args "print_level" (ArgVal.num (PFloat.val 0))
  { f := function
    varNames := varNames
    minuitArgs := args
    minuitParam1 := minuitParam1
    minuitParam2 := minuitParam2
    nameToPosition := nameToPosition }

/-- Source lines 845-853, `ContourWorker._create_new_minuit_object`:
`Minuit(self._function, **args)` followed by `tol = 100`. -/
def ContourWorker.createNewMinuitObject (w : ContourWorker) (args : ArgsDict) :
    ContourMinuitObj :=
  { f := w.f, args := args, tol := 100 }

/-- The engine's `list_of_vary_param()`: the declared variables whose
`fix_*` keyword is not `True`. -/
def listOfVaryParam (varNames : List String) (args : ArgsDict) : List String :=
  varNames.filter (fun n => args ("fix_" ++ n) != some (ArgVal.boolean true))

/-- Source lines 879-892: for each scanned parameter name (skipping a `None`
second parameter), raise `ParameterIsNotFree` when the name is not a key of
the argument dict, otherwise set its `fix_*` key to `True`. -/
def fixScrutinized (d : ArgsDict) : List (Option String) → Except PyError ArgsDict
  | [] => Except.ok d
  | none :: rest => fixScrutinized d rest
  | some n :: rest =>
    if d n = none then Except.error PyError.parameterIsNotFree
    else fixScrutinized (dset d ("fix_" ++ n) (ArgVal.boolean true)) rest

/-- Source lines 866-895 of `ContourWorker.__call__`: the keyword arguments
of the transient Minuit object — the copied args with the scanned
parameter(s) set to the grid-point values and fixed. -/
def ContourWorker.pointObj (w : ContourWorker) (value1 value2 : PFloat) :
    Except PyError ContourMinuitObj :=
  let d := dset w.minuitArgs w.minuitParam1 (ArgVal.num value1)
  let d := match w.minuitParam2 with
    | none => d
    | some p2 => dset d p2 (ArgVal.num value2)
  match fixScrutinized d [some w.minuitParam1, w.minuitParam2] with
  | Except.error e => Except.error e
  | Except.ok d2 => Except.ok (w.createNewMinuitObject d2)

/-- The final keyword dict of the transient Minuit object at a grid point:
the copied worker arguments with the grid-point values assigned to the
scanned parameter(s) and their `fix_*` keys set to `True` (the membership
test of source lines 886-888 always passes, because the scanned keys were
assigned just above it — see `pointObj_eq`). -/
def pointFixedArgs (w : ContourWorker) (value1 value2 : PFloat) : ArgsDict :=
  let d := dset w.minuitArgs w.minuitParam1 (ArgVal.num value1)
  let d := match w.minuitParam2 with
    | none => d
    | some p2 => dset d p2 (ArgVal.num value2)
  let d := dset d ("fix_" ++ w.minuitParam1) (ArgVal.boolean true)
  match w.minuitParam2 with
  | none => d
  | some p2 => dset d ("fix_" ++ p2) (ArgVal.boolean true)

/-- Source lines 855-937, `ContourWorker.__call__`: build the transient
engine for the grid point; if fixing the scanned parameter(s) leaves no free
parameter, evaluate the objective directly (reordering the two values by the
name-to-position dict in the two-parameter case); otherwise run MIGRAD,
returning `FIT_FAILED` if it raises and `fval` if it returns. -/
def ContourWorker.call (we : WorkerEngine) (w : ContourWorker)
    (args : PFloat × PFloat) : Except PyError PFloat :=
  let value1 := args.1
  let value2 := args.2
  match w.pointObj value1 value2 with
  | Except.error e => Except.error e
  | Except.ok obj =>
    if (listOfVaryParam w.varNames obj.args).length = 0 then
      match w.minuitParam2 with
      | none => Except.ok (w.f [value1])
      | some p2 =>
        match w.nameToPosition w.minuitParam1, w.nameToPosition p2 with
        | some i1, some i2 =>
          if i1 < 2 ∧ i2 < 2 then
            Except.ok (w.f (([PFloat.val 0, PFloat.val 0].set i1 value1).set i2 value2))
          else Except.error PyError.indexError
        | _, _ => Except.error PyError.keyError
    else
      match we.migrad obj with
      | Except.error _ => Except.ok FIT_FAILED
      | Except.ok s => Except.ok s.fval

/-- Embedding of `numpy.linspace(a, b, n)`: `n` evenly spaced points from
`a` to `b` inclusive. -/
def linspace (a b : ℚ) (n : Nat) : List ℚ :=
  if n ≤ 1 then (List.range n).map (fun _ => a)
  else (List.range n).map (fun i : Nat => a + (b - a) * (i : ℚ) / ((n : ℚ) - 1))

/-- Source lines 556-576: per axis, either linear steps or the logarithmic
steps `numpy.logspace(log10 min, log10 max, n)`.  The logarithmic routine is
an external numeric routine (irrational in general) and is passed in as a
black box `logspaceFn`. -/
def stepsFor (logspaceFn : ℚ → ℚ → Nat → List ℚ) (useLog : Bool)
    (mn mx : ℚ) (n : Nat) : List ℚ :=
  if useLog then logspaceFn mn mx n else linspace mn mx n

/-- Modelled from the spec: `threeML.utils.cartesian.cartesian` (not under
`src/`) builds the full Cartesian grid of (value1, value2) pairs, first axis
slowest, matching the later `reshape((len1, len2))`. -/
def cartesian {α β : Type} : List α → List β → List (α × β)
  | [], _ => []
  | x :: xs, ys => ys.map (fun y => (x, y)) ++ cartesian xs ys

/-- Helper of the embedding of `numpy.reshape((nrows, ncols))`: split a flat
list into `nrows` consecutive rows of `ncols`. -/
def reshapeAux {α : Type} (ncols : Nat) : Nat → List α → List (List α)
  | 0, _ => []
  | Nat.succ r, l => l.take ncols :: reshapeAux ncols r (l.drop ncols)

/-- Source lines 716-717: `numpy.array(results).reshape((len(steps1),
len(steps2)))`. -/
def reshape2d {α : Type} (nrows ncols : Nat) (l : List α) : List (List α) :=
  reshapeAux ncols nrows l

/-- Python truthiness of `self._best_fit_parameters` (line 594): `None` and
the empty dict are falsy. -/
def truthyBest : Option (List (String × ℚ)) → Bool
  | none => false
  | some l => !l.isEmpty

/-- Source lines 592-601 of `contours`: restore the best fit when one is
stored (and truthy), otherwise only warn (the warning is display-only and
elided). -/
def contoursBaseline (m : MState) : Except PyError MState :=
  if truthyBest m.bestFitParameters then MinuitMinimizer.restoreBestFit m else Except.ok m

/-- Source lines 604-624 of `contours`: instance the `ContourWorker` from
the duplicated fit arguments, the current engine values, the minuit names of
the scanned parameters and the name-to-position dict. -/
def mkContourWorker (m : MState) (minuitParam1 : String) (minuitParam2 : Option String) :
    ContourWorker :=
  ContourWorker.init m.f m.varNames m.minuit.values m.minuit.fitarg
    minuitParam1 minuitParam2 m.nameToPosition

/-- Execution strategy of `contours` (source lines 631-712): in-process
serial evaluation, or submission to the parallel backend.  The backend is
modelled from the spec (the `threeML.parallel.parallel_client` module is not
under `src/`): it evaluates the submitted grid points in an arbitrary
completion order — the schedule — and collects results in submission
order. -/
inductive Strategy where
  | serial : Strategy
  | parallel : List Nat → Strategy

/-- Serial path (source lines 643-659): `map(contour_worker, grid)`; the
progress-bar wrapper only increments a display and is elided. -/
def serialLoop (we : WorkerEngine) (w : ContourWorker) :
    List (PFloat × PFloat) → Except PyError (List PFloat)
  | [] => Except.ok []
  | p :: rest =>
    match ContourWorker.call we w p with
    | Except.error e => Except.error e
    | Except.ok r =>
      match serialLoop we w rest with
      | Except.error e => Except.error e
      | Except.ok rs => Except.ok (r :: rs)

/-- Modelled from the spec: the worker pool runs the submitted grid points
in its own completion order (the schedule; indices outside the grid are
ignored), tagging each result with the index of the grid point it belongs
to.  An exception from any point is re-raised at collection
(`amr.get()`). -/
def parallelStore (we : WorkerEngine) (w : ContourWorker)
    (grid : List (PFloat × PFloat)) :
    List Nat → Except PyError (List (Nat × PFloat))
  | [] => Except.ok []
  | k :: rest =>
    if k < grid.length then
      match ContourWorker.call we w (grid.getD k (PFloat.nan, PFloat.nan)) with
      | Except.error e => Except.error e
      | Except.ok r =>
        match parallelStore we w grid rest with
        | Except.error e => Except.error e
        | Except.ok st => Except.ok ((k, r) :: st)
    else parallelStore we w grid rest

/-- Modelled from the spec: `amr.get()` returns the results in submission
order, regardless of the completion order recorded in the store. -/
def collectInOrder (n : Nat) (store : List (Nat × PFloat)) : List (Option PFloat) :=
  (List.range n).map (fun k => (store.find? (fun p => p.1 == k)).map (fun p => p.2))

/-- Dispatch on the execution strategy (source lines 631-712). -/
def runStrategy (we : WorkerEngine) (w : ContourWorker)
    (grid : List (PFloat × PFloat)) : Strategy → Except PyError (List (Option PFloat))
  | Strategy.serial =>
    match serialLoop we w grid with
    | Except.error e => Except.error e
    | Except.ok rs => Except.ok (rs.map some)
  | Strategy.parallel sched =>
    match parallelStore we w grid sched with
    | Except.error e => Except.error e
    | Except.ok st => Except.ok (collectInOrder grid.length st)

/-- Source lines 493-717, `MinuitMinimizer.contours`: generate the step
sequences (the second degenerating to `[nan]` when no second parameter is
given), build the Cartesian grid, restore the best fit or warn, instance the
worker, run the chosen strategy, and return
`(param_1_steps, param_2_steps, reshape(results))`.  The `log`/`parallel`
option parsing is passed in already dispatched, and progress display is
elided.  The second component of the returned triple embeds the dynamically
typed Python value documented as "array or None". -/
def MinuitMinimizer.contours (we : WorkerEngine) (m : MState)
    (logspaceFn : ℚ → ℚ → Nat → List ℚ)
    (param1 : String) (param1Minimum param1Maximum : ℚ) (param1NSteps : Nat)
    (param2 : Option (String × ℚ × ℚ × Nat))
    (p1log p2log : Bool) (strat : Strategy) :
    Except PyError (List ℚ × Option (List PFloat) × List (List (Option PFloat))) :=
  let param1Steps := stepsFor logspaceFn p1log param1Minimum param1Maximum param1NSteps
  let param2Steps : List PFloat :=
    match param2 with
    | some q => (stepsFor logspaceFn p2log q.2.1 q.2.2.1 q.2.2.2).map PFloat.val
    | none => [PFloat.nan]
  let grid := cartesian (param1Steps.map PFloat.val) param2Steps
  match contoursBaseline m with
  | Except.error e => Except.error e
  | Except.ok mb =>
    let minuitParam1 := parameterNameToMinuitName param1
    let minuitParam2 := param2.map (fun q => parameterNameToMinuitName q.1)
    let contourWorker := mkContourWorker mb minuitParam1 minuitParam2
    match runStrategy we contourWorker grid strat with
    | Except.error e => Except.error e
    | Except.ok results =>
      Except.ok (param1Steps, some param2Steps,
        reshape2d param1Steps.length param2Steps.length results)

/-- A registry parameter used in the concrete scenarios. -/
def demoParam : Param := { value := 1, delta := 1, minValue := none, maxValue := none }

/-- A concrete engine state. -/
def demoES : EngineState :=
  { values := [("a", 1)], fitarg := fun _ => none, merrors := [], edm := 1,
    fval := PFloat.val 0, tol := 1, up := 0.5, strategyLevel := 0 }

/-- A concrete main engine whose MIGRAD pass never reaches the convergence
criterion (it always lands at `edm = 1`, `tol = 1`, and
`1 > 0.002 * 1 * 0.5`). -/
def engineNoConv : MainEngine :=
  { mkEngine := fun _ _ => demoES
    migrad := fun s => { s with edm := 1, tol := 1 }
    hesse := fun s => s
    minos := fun s => Except.ok s }

/-- A minimizer state on which `minimize()` has never been called (empty
result store), with a one-parameter registry. -/
def mNoPrior : MState :=
  { parameters := [("a", demoParam)], varNames := ["a"],
    nameToPosition := buildNameToPosition ["a"], f := fun _ => PFloat.val 0,
    minuit := demoES, bestFitParameters := none, functionMinimumValue := none }

/-- The same minimizer state after a previous successful fit stored
`{"a": 5}` with minimum `2`. -/
def mStale : MState :=
  { mNoPrior with bestFitParameters := some [("a", 5)],
                  functionMinimumValue := some (PFloat.val 2) }

/-- The state reached by the failing `minimize()` of the C3 scenario. -/
def mStaleAfter : MState :=
  { mStale with minuit := (runMigrad engineNoConv 10 mStale.minuit).1 }

/-- A concrete objective used in the worker scenarios. -/
def fDemo : List PFloat → PFloat := fun _ => PFloat.val 0

/-- A concrete contour worker scanning parameter `a` of a two-parameter
objective (so `b` stays free at each grid point). -/
def wC4 : ContourWorker :=
  ContourWorker.init fDemo ["a", "b"] [("a", 0), ("b", 0)] (fun _ => none) "a" none
    (buildNameToPosition ["a", "b"])

/-- A per-grid-point engine whose MIGRAD always raises. -/
def weRaise : WorkerEngine := { migrad := fun _ => Except.error () }

/-- A per-grid-point engine whose MIGRAD returns without raising but in a
non-converged state (`edm = 5` far above the threshold `0.002 * 100 * 0.5`),
with function value `7`. -/
def weNoConvPoint : WorkerEngine :=
  { migrad := fun _ => Except.ok { edm := 5, fval := PFloat.val 7 } }

/-- An objective that returns its first positional argument, making the
argument slotting observable. -/
def fnSlot : List PFloat → PFloat := fun l => l.getD 0 PFloat.nan

/-- A per-grid-point engine that always returns function value 9. -/
def weOk9 : WorkerEngine := { migrad := fun _ => Except.ok { edm := 0, fval := PFloat.val 9 } }

/-- A concrete engine state with two declared variables. -/
def esTwo : EngineState :=
  { values := [("a", 0), ("b", 0)], fitarg := fun _ => none, merrors := [], edm := 1,
    fval := PFloat.val 0, tol := 1, up := 0.5, strategyLevel := 0 }

/-- A two-parameter minimizer state with no stored fit (the contour then
only warns and proceeds from the current values). -/
def mTwo : MState :=
  { parameters := [("a", demoParam), ("b", demoParam)], varNames := ["a", "b"],
    nameToPosition := buildNameToPosition ["a", "b"], f := fDemo,
    minuit := esTwo, bestFitParameters := none, functionMinimumValue := none }

/-- A concrete stand-in for the logarithmic step generator. -/
def lsfDemo : ℚ → ℚ → Nat → List ℚ := fun a _ n => List.replicate n a

/-! Helper lemmas, and the claim theorems with their witnesses and
counterexamples. -/

/-- When every MIGRAD pass lands in a non-converged state, the retry loop
performs exactly its budget of passes and ends non-converged. -/
lemma runMigrad_never (e : MainEngine)
    (h : ∀ s, ¬ migradHasConverged (e.migrad s).edm (e.migrad s).tol) :
    ∀ (n : Nat) (s : EngineState),
      (runMigrad e n s).2 = n ∧
      (1 ≤ n → ¬ migradHasConverged (runMigrad e n s).1.edm (runMigrad e n s).1.tol) := by
  intro n
  induction n with
  | zero =>
    intro s
    exact ⟨rfl, fun h1 => absurd h1 (by omega)⟩
  | succ k ih =>
    intro s
    have hstep : runMigrad e (k + 1) s
        = ((runMigrad e k (e.migrad s)).1, (runMigrad e k (e.migrad s)).2 + 1) := by
      simp only [runMigrad]
      rw [if_neg (h s)]
    cases k with
    | zero =>
      rw [hstep]
      refine ⟨by simp [runMigrad], fun _ => ?_⟩
      simpa [runMigrad] using h s
    | succ j =>
      rw [hstep]
      exact ⟨by simp [(ih (e.migrad s)).1], fun _ => (ih (e.migrad s)).2 (by omega)⟩

/-- Restoring the best fit never changes the result store itself. -/
lemma restoreBestFit_preserves (m m' : MState)
    (h : MinuitMinimizer.restoreBestFit m = Except.ok m') :
    m'.bestFitParameters = m.bestFitParameters ∧
    m'.functionMinimumValue = m.functionMinimumValue := by
  unfold MinuitMinimizer.restoreBestFit at h
  split at h
  · split at h
    · cases h
      exact ⟨rfl, rfl⟩
    · cases h
  · split at h
    · cases h
    · cases h
      exact ⟨rfl, rfl⟩

/-- The collected best-fit mapping covers exactly the registry keys, in
registry order. -/
lemma collectBestFit_keys (values : List (String × ℚ)) :
    ∀ (ps : List (String × Param)) (best : List (String × ℚ)),
      collectBestFit values ps = Except.ok best →
      best.map Prod.fst = ps.map Prod.fst := by
  intro ps
  induction ps with
  | nil =>
    intro best h
    simp only [collectBestFit] at h
    cases h
    rfl
  | cons kp rest ih =>
    intro best h
    simp only [collectBestFit] at h
    split at h
    · cases h
    · rename_i v hl
      split at h
      · cases h
      · rename_i r hr
        cases h
        simp [ih r hr]

/-- The concrete engine indeed never converges. -/
lemma engineNoConv_never :
    ∀ s, ¬ migradHasConverged (engineNoConv.migrad s).edm (engineNoConv.migrad s).tol := by
  intro s
  show ¬ ((1 : ℚ) ≤ 0.002 * 1 * 0.5)
  norm_num

/-- Claim C1: for every objective whose minimization never satisfies the
convergence criterion, `minimize()` performs exactly 10 MIGRAD passes and
returns the empty best-fit mapping together with `FIT_FAILED`, without
raising an exception. -/
theorem claimC1 (e : MainEngine) (m : MState)
    (h : ∀ s, ¬ migradHasConverged (e.migrad s).edm (e.migrad s).tol) :
    (runMigrad e 10 m.minuit).2 = 10 ∧
    (MinuitMinimizer.minimize e m).map (fun r => r.2) = Except.ok ([], FIT_FAILED) := by
  refine ⟨(runMigrad_never e h 10 m.minuit).1, ?_⟩
  have hnc := (runMigrad_never e h 10 m.minuit).2 (by omega)
  simp only [MinuitMinimizer.minimize]
  rw [if_pos hnc]
  rfl

/-- Witness for C1: the concrete never-converging engine takes exactly the
10 budgeted passes and yields the failure result. -/
theorem claimC1_witness :
    (runMigrad engineNoConv 10 mNoPrior.minuit).2 = 10 ∧
    (MinuitMinimizer.minimize engineNoConv mNoPrior).map (fun r => r.2)
      = Except.ok ([], FIT_FAILED) :=
  claimC1 engineNoConv mNoPrior engineNoConv_never

/-- Claim C2 (code bug): calling `get_errors()` on a one-parameter minimizer
before any `minimize()` raises a `TypeError` (subscripting `None` inside
`_restore_best_fit`), not the descriptive `CannotComputeErrors`. -/
theorem claimC2 :
    MinuitMinimizer.getErrors engineNoConv mNoPrior = Except.error PyError.typeError ∧
    PyError.typeError ≠ PyError.cannotComputeErrors := by
  exact ⟨rfl, by decide⟩

/-- Claim C3 (amended): `minimize()` either fails and leaves the result
store exactly as it was — so a previous best fit remains readable — or
succeeds and atomically replaces the store with a complete mapping over all
registry parameters together with the new minimum value. -/
theorem claimC3 (e : MainEngine) (m m' : MState) (res : List (String × ℚ) × PFloat)
    (h : MinuitMinimizer.minimize e m = Except.ok (m', res)) :
    (¬ migradHasConverged (runMigrad e 10 m.minuit).1.edm (runMigrad e 10 m.minuit).1.tol →
      m'.bestFitParameters = m.bestFitParameters ∧
      m'.functionMinimumValue = m.functionMinimumValue ∧
      res = ([], FIT_FAILED)) ∧
    (migradHasConverged (runMigrad e 10 m.minuit).1.edm (runMigrad e 10 m.minuit).1.tol →
      m'.bestFitParameters = some res.1 ∧
      res.1.map Prod.fst = m.parameters.map Prod.fst ∧
      m'.functionMinimumValue = some (runMigrad e 10 m.minuit).1.fval ∧
      res.2 = (runMigrad e 10 m.minuit).1.fval) := by
  simp only [MinuitMinimizer.minimize] at h
  split at h
  · rename_i hnc
    cases h
    exact ⟨fun _ => ⟨rfl, rfl, rfl⟩, fun hcv => absurd hcv hnc⟩
  · rename_i hcc
    have hc := not_not.mp hcc
    split at h
    · cases h
    · rename_i best hcb
      split at h
      · cases h
      · rename_i m4 hr
        cases h
        have hp := restoreBestFit_preserves _ _ hr
        refine ⟨fun hn => absurd hc hn, fun _ => ?_⟩
        exact ⟨by simpa using hp.1, collectBestFit_keys _ _ _ hcb, by simpa using hp.2, rfl⟩

/-- Counterexample for C3 as stated: after a stored successful fit, a
failing `minimize()` returns the failure result but leaves the stale
previous best fit readable — the store is neither cleared nor marked
failed. -/
theorem claimC3_counterexample :
    (MinuitMinimizer.minimize engineNoConv mStale).map
        (fun r => (r.1.bestFitParameters, r.1.functionMinimumValue, r.2))
      = Except.ok (some [("a", 5)], some (PFloat.val 2), ([], FIT_FAILED)) ∧
    some [("a", (5 : ℚ))] ≠ (none : Option (List (String × ℚ))) := by
  constructor
  · with_unfolding_all rfl
  · decide

/-- Witness for C3 (amended), failure side: the concrete failing
minimization leaves the stale store unchanged and returns the failure
result. -/
theorem claimC3_witness :
    mStaleAfter.bestFitParameters = mStale.bestFitParameters ∧
    mStaleAfter.functionMinimumValue = mStale.functionMinimumValue ∧
    (([], FIT_FAILED) : List (String × ℚ) × PFloat) = ([], FIT_FAILED) :=
  (claimC3 engineNoConv mStale mStaleAfter ([], FIT_FAILED) (by with_unfolding_all rfl)).1
    ((runMigrad_never engineNoConv engineNoConv_never 10 mStale.minuit).2 (by omega))

/-- Character-wise dot-to-underscore replacement is injective on strings
that avoid the replacement character. -/
lemma mapDotChar_inj : ∀ (l1 l2 : List Char),
    '_' ∉ l1 → '_' ∉ l2 →
    l1.map (fun c => if c = '.' then '_' else c)
      = l2.map (fun c => if c = '.' then '_' else c) →
    l1 = l2 := by
  intro l1
  induction l1 with
  | nil =>
    intro l2 _ _ h
    cases l2 with
    | nil => rfl
    | cons b t2 => simp at h
  | cons a t ih =>
    intro l2 h1 h2 h
    cases l2 with
    | nil => simp at h
    | cons b t2 =>
      simp only [List.map_cons, List.cons.injEq] at h
      have h1a : a ≠ '_' := fun hx => h1 (by rw [← hx] at *; exact List.mem_cons_self a t)
      have h2b : b ≠ '_' := fun hx => h2 (by rw [← hx] at *; exact List.mem_cons_self b t2)
      have h1t : '_' ∉ t := fun hx => h1 (List.mem_cons_of_mem a hx)
      have h2t : '_' ∉ t2 := fun hx => h2 (List.mem_cons_of_mem b hx)
      have hhead : a = b := by
        by_cases hA : a = '.'
        · by_cases hB : b = '.'
          · rw [hA, hB]
          · rw [if_pos hA, if_neg hB] at h
            exact absurd h.1.symm h2b
        · by_cases hB : b = '.'
          · rw [if_neg hA, if_pos hB] at h
            exact absurd h.1 h1a
          · rw [if_neg hA, if_neg hB] at h
            exact h.1
      rw [hhead, ih t2 h1t h2t h.2]

/-- Claim C9 (amended): the name mangling is injective on parameter
identities that do not contain the flat-namespace character, so distinct
such identities always render to distinct engine variable names.  (It is not
injective in general — see the counterexample.) -/
theorem claimC9 (s t : String) (hs : '_' ∉ s.data) (ht : '_' ∉ t.data)
    (h : parameterNameToMinuitName s = parameterNameToMinuitName t) : s = t := by
  have hd : s.data.map (fun c => if c = '.' then '_' else c)
      = t.data.map (fun c => if c = '.' then '_' else c) := congrArg String.data h
  have hdt := mapDotChar_inj s.data t.data hs ht hd
  cases s
  cases t
  exact congrArg String.mk hdt

/-- Counterexample for C9 as stated: the distinct identities `"a.b"` and
`"a_b"` render to the same engine variable name, so the mapping is not
bijective on every registry. -/
theorem claimC9_counterexample :
    parameterNameToMinuitName "a.b" = parameterNameToMinuitName "a_b" ∧
    ("a.b" : String) ≠ "a_b" := by
  exact ⟨rfl, by decide⟩

/-- Witness for C9 (amended) at concrete underscore-free identities. -/
theorem claimC9_witness : ("x.y" : String) = "x.y" :=
  claimC9 "x.y" "x.y" (by decide) (by decide) rfl

/-- Claim C10: every transient per-grid-point engine instance has its
tolerance hard-set to 100, while the main engine's tolerance is whatever
`ftol` the caller configured — the per-grid-point threshold is independent
of it. -/
theorem claimC10 (w : ContourWorker) (args : ArgsDict) (e : MainEngine)
    (f : List PFloat → PFloat) (parameters : List (String × Param)) (ftol verbosity : ℚ) :
    (ContourWorker.createNewMinuitObject w args).tol = 100 ∧
    (MinuitMinimizer.init e f parameters ftol verbosity).minuit.tol = ftol :=
  ⟨rfl, rfl⟩

/-- Dict lookup at the just-assigned key. -/
lemma dset_self (d : ArgsDict) (k : String) (v : ArgVal) : dset d k v k = some v := by
  simp [dset]

/-- Dict lookup at a different key. -/
lemma dset_ne (d : ArgsDict) (k q : String) (v : ArgVal) (h : q ≠ k) : dset d k v q = d q := by
  simp [dset, h]

/-- String concatenation cancels on the left. -/
lemma string_append_left_inj (a s t : String) (h : a ++ s = a ++ t) : s = t := by
  have hd : a.data ++ s.data = a.data ++ t.data := congrArg String.data h
  have hst := List.append_cancel_left hd
  cases s
  cases t
  exact congrArg String.mk hst

/-- No `fix_*` key is the `errordef` key. -/
lemma fix_ne_errordef (s : String) : ("fix_" ++ s : String) ≠ "errordef" := by
  intro h
  have hd : ('f' :: 'i' :: 'x' :: '_' :: s.data) = "errordef".data := congrArg String.data h
  have h0 : ('f' : Char) = 'e' := congrArg List.headI hd
  exact absurd h0 (by decide)

/-- The dict-membership test in the fix loop of `__call__` always passes for
the scanned parameter names (they were assigned just above it), so the
transient Minuit object is always constructed, from `pointFixedArgs`. -/
lemma pointObj_eq (w : ContourWorker) (v1 v2 : PFloat) :
    w.pointObj v1 v2 = Except.ok (w.createNewMinuitObject (pointFixedArgs w v1 v2)) := by
  unfold ContourWorker.pointObj pointFixedArgs
  cases hp2 : w.minuitParam2 with
  | none =>
    simp only [fixScrutinized]
    rw [if_neg (by simp [dset])]
  | some p2 =>
    simp only [fixScrutinized]
    rw [if_neg (by simp only [dset]; split <;> simp),
        if_neg (by simp only [dset]; split <;> simp)]

/-- Claim C4 (amended): at any grid point where fixing the scanned
parameter(s) still leaves free parameters, the per-point minimization can
never abort the contour: the worker always returns a value.  If MIGRAD
raises, the `FIT_FAILED` sentinel is recorded for that cell; if MIGRAD
returns without raising — whether or not it converged — the engine's final
function value is recorded. -/
theorem claimC4 (we : WorkerEngine) (w : ContourWorker) (v1 v2 : PFloat)
    (h : (listOfVaryParam w.varNames (pointFixedArgs w v1 v2)).length ≠ 0) :
    ContourWorker.call we w (v1, v2)
      = Except.ok
          (match we.migrad (w.createNewMinuitObject (pointFixedArgs w v1 v2)) with
           | Except.error _ => FIT_FAILED
           | Except.ok s => s.fval) := by
  simp only [ContourWorker.call]
  rw [pointObj_eq]
  simp only [ContourWorker.createNewMinuitObject]
  rw [if_neg h]
  split <;> rfl

/-- Witness for C4 (amended): at the concrete grid point the raising MIGRAD
is contained and the sentinel is recorded. -/
theorem claimC4_witness :
    ContourWorker.call weRaise wC4 (PFloat.val 0, PFloat.val 0) = Except.ok FIT_FAILED :=
  claimC4 weRaise wC4 (PFloat.val 0) (PFloat.val 0) (by decide)

/-- Counterexample for C4 as stated: a per-point minimization that finishes
without raising but does not converge (its `edm` fails the convergence
criterion at the transient engine's tolerance) records the engine's function
value `7`, not the `FIT_FAILED` sentinel. -/
theorem claimC4_counterexample :
    ContourWorker.call weNoConvPoint wC4 (PFloat.val 0, PFloat.val 0) = Except.ok (PFloat.val 7)
    ∧ ¬ migradHasConverged 5
        (ContourWorker.createNewMinuitObject wC4
          (pointFixedArgs wC4 (PFloat.val 0) (PFloat.val 0))).tol
    ∧ PFloat.val 7 ≠ FIT_FAILED := by
  refine ⟨by with_unfolding_all rfl, ?_, by with_unfolding_all decide⟩
  show ¬ ((5 : ℚ) ≤ 0.002 * 100 * 0.5)
  norm_num

/-- Positions assigned by the name-to-position dict of a two-name registry. -/
lemma buildNameToPosition_pair (na nb : String) (hne : na ≠ nb) :
    buildNameToPosition [na, nb] nb = some 1 ∧ buildNameToPosition [na, nb] na = some 0 := by
  constructor
  · simp [buildNameToPosition, List.enum, List.enumFrom]
  · simp [buildNameToPosition, List.enum, List.enumFrom, hne]

/-- Claim C6: at a two-parameter grid point where pinning the scanned
parameters leaves zero free parameters, the worker skips optimization and
evaluates the objective directly, slotting the two pinned values into the
positional argument list by the original registry's name-to-position
mapping.  Here the two parameters are requested in the opposite order
(`param_1 = nb`, `param_2 = na`) from their declaration order `[na, nb]`,
and the returned value is the objective evaluated with `v2` in slot 0 (the
`na` slot) and `v1` in slot 1 (the `nb` slot) — the objective at that grid
point. -/
theorem claimC6 (we : WorkerEngine) (fn : List PFloat → PFloat)
    (na nb : String) (vals : List (String × ℚ)) (args0 : ArgsDict)
    (v1 v2 : PFloat) (hne : na ≠ nb) :
    ContourWorker.call we
      (ContourWorker.init fn [na, nb] vals args0 nb (some na) (buildNameToPosition [na, nb]))
      (v1, v2)
    = Except.ok (fn [v2, v1]) := by
  have hcancel : ("fix_" ++ nb : String) ≠ "fix_" ++ na := by
    intro hx
    exact hne (string_append_left_inj _ _ _ hx).symm
  have hvary :
      listOfVaryParam
        (ContourWorker.init fn [na, nb] vals args0 nb (some na)
          (buildNameToPosition [na, nb])).varNames
        (pointFixedArgs
          (ContourWorker.init fn [na, nb] vals args0 nb (some na)
            (buildNameToPosition [na, nb])) v1 v2) = [] := by
    simp only [ContourWorker.init, pointFixedArgs, listOfVaryParam]
    rw [List.filter_eq_nil_iff]
    intro n hn
    rcases List.mem_pair.mp hn with hna | hnb
    · subst hna
      rw [dset_self]
      simp
    · subst hnb
      rw [dset_ne _ _ _ _ hcancel, dset_self]
      simp
  simp only [ContourWorker.call]
  rw [pointObj_eq]
  simp only [ContourWorker.createNewMinuitObject]
  rw [if_pos (by rw [hvary]; rfl)]
  simp only [ContourWorker.init]
  rw [(buildNameToPosition_pair na nb hne).1, (buildNameToPosition_pair na nb hne).2]
  simp

/-- Witness for C6: with declaration order `["a", "b"]` and the parameters
requested in the opposite order, the pinned values land in their declared
slots. -/
theorem claimC6_witness :
    ContourWorker.call weRaise
      (ContourWorker.init fnSlot ["a", "b"] [("a", 0), ("b", 0)] (fun _ => none) "b" (some "a")
        (buildNameToPosition ["a", "b"]))
      (PFloat.val 1, PFloat.val 42)
    = Except.ok (fnSlot [PFloat.val 42, PFloat.val 1]) :=
  claimC6 weRaise fnSlot "a" "b" [("a", 0), ("b", 0)] (fun _ => none)
    (PFloat.val 1) (PFloat.val 42) (by decide)

/-- Claim C8: every engine instance created by this core is configured with
the error-definition constant 0.5 — the main engine's construction dict, the
`up` attribute set on the main engine afterwards, the contour worker's
argument dict, and the construction dict of every transient per-grid-point
engine (provided no scanned engine variable is itself named `errordef`,
which no mangled registry name of a dotted identity can be). -/
theorem claimC8 (parameters : List (String × Param)) (verbosity : ℚ)
    (e : MainEngine) (f : List PFloat → PFloat) (ftol : ℚ)
    (fn : List PFloat → PFloat) (vns : List String) (vals : List (String × ℚ))
    (args0 : ArgsDict) (p1 : String) (p2 : Option String)
    (n2p : String → Option Nat) (v1 v2 : PFloat)
    (h1 : p1 ≠ "errordef") (h2 : ∀ q, p2 = some q → q ≠ "errordef") :
    iminuitInitParameters parameters verbosity "errordef"
      = some (ArgVal.num (PFloat.val 0.5)) ∧
    (MinuitMinimizer.init e f parameters ftol verbosity).minuit.up = 0.5 ∧
    (ContourWorker.init fn vns vals args0 p1 p2 n2p).minuitArgs "errordef"
      = some (ArgVal.num (PFloat.val 0.5)) ∧
    (ContourWorker.createNewMinuitObject
        (ContourWorker.init fn vns vals args0 p1 p2 n2p)
        (pointFixedArgs (ContourWorker.init fn vns vals args0 p1 p2 n2p) v1 v2)).args
        "errordef"
      = some (ArgVal.num (PFloat.val 0.5)) := by
  cases p2 with
  | none =>
    refine ⟨?_, rfl, ?_, ?_⟩
    · simp only [iminuitInitParameters]
      rw [dset_ne _ _ _ _ (by decide), dset_self]
    · simp only [ContourWorker.init]
      rw [dset_ne _ _ _ _ (by decide), dset_self]
    · simp only [ContourWorker.createNewMinuitObject, pointFixedArgs, ContourWorker.init]
      rw [dset_ne _ _ _ _ (Ne.symm (fix_ne_errordef _)), dset_ne _ _ _ _ (Ne.symm h1),
          dset_ne _ _ _ _ (by decide), dset_self]
  | some q =>
    have hq : q ≠ "errordef" := h2 q rfl
    refine ⟨?_, rfl, ?_, ?_⟩
    · simp only [iminuitInitParameters]
      rw [dset_ne _ _ _ _ (by decide), dset_self]
    · simp only [ContourWorker.init]
      rw [dset_ne _ _ _ _ (by decide), dset_self]
    · simp only [ContourWorker.createNewMinuitObject, pointFixedArgs, ContourWorker.init]
      rw [dset_ne _ _ _ _ (Ne.symm (fix_ne_errordef _)),
          dset_ne _ _ _ _ (Ne.symm (fix_ne_errordef _)),
          dset_ne _ _ _ _ (Ne.symm hq), dset_ne _ _ _ _ (Ne.symm h1),
          dset_ne _ _ _ _ (by decide), dset_self]

/-- Witness for C8 at a concrete registry, worker and grid point. -/
theorem claimC8_witness :
    iminuitInitParameters [("a", demoParam)] 0 "errordef" = some (ArgVal.num (PFloat.val 0.5)) ∧
    (MinuitMinimizer.init engineNoConv fDemo [("a", demoParam)] 1000 0).minuit.up = 0.5 ∧
    (ContourWorker.init fDemo ["a", "b"] [("a", 0), ("b", 0)] (fun _ => none) "a" (some "b")
        (buildNameToPosition ["a", "b"])).minuitArgs "errordef"
      = some (ArgVal.num (PFloat.val 0.5)) ∧
    (ContourWorker.createNewMinuitObject
        (ContourWorker.init fDemo ["a", "b"] [("a", 0), ("b", 0)] (fun _ => none) "a" (some "b")
          (buildNameToPosition ["a", "b"]))
        (pointFixedArgs
          (ContourWorker.init fDemo ["a", "b"] [("a", 0), ("b", 0)] (fun _ => none) "a" (some "b")
            (buildNameToPosition ["a", "b"])) (PFloat.val 3) (PFloat.val 4))).args "errordef"
      = some (ArgVal.num (PFloat.val 0.5)) :=
  claimC8 [("a", demoParam)] 0 engineNoConv fDemo 1000 fDemo ["a", "b"] [("a", 0), ("b", 0)]
    (fun _ => none) "a" (some "b") (buildNameToPosition ["a", "b"]) (PFloat.val 3) (PFloat.val 4)
    (by decide) (by intro q hq; cases hq; decide)

/-- Claim C5 (code bug): a contour call scanning only one parameter returns
as its second component the one-element `nan` array built at source line
584 — not the `None` promised by the method's own docstring ("or None if
stepping only in one direction", lines 518-519) and by the spec contract. -/
theorem claimC5 :
    (MinuitMinimizer.contours weOk9 mTwo lsfDemo "a" 0 1 2 none false false
        Strategy.serial).map (fun t => t.2.1)
      = Except.ok (some [PFloat.nan]) ∧
    some [PFloat.nan] ≠ (none : Option (List PFloat)) := by
  refine ⟨by with_unfolding_all rfl, by decide⟩

/-- A successful serial pass produces one result per grid point. -/
lemma serialLoop_ok_length (we : WorkerEngine) (w : ContourWorker) :
    ∀ (l : List (PFloat × PFloat)) (rs : List PFloat),
      serialLoop we w l = Except.ok rs → rs.length = l.length := by
  intro l
  induction l with
  | nil =>
    intro rs h
    simp only [serialLoop] at h
    cases h
    rfl
  | cons p rest ih =>
    intro rs h
    cases hc : ContourWorker.call we w p with
    | error e => simp only [serialLoop, hc] at h; exact Except.noConfusion h
    | ok r =>
      cases ht : serialLoop we w rest with
      | error e => simp only [serialLoop, hc, ht] at h; exact Except.noConfusion h
      | ok rs2 =>
        simp only [serialLoop, hc, ht] at h
        cases h
        simp [ih rs2 ht]

/-- A successful serial pass records, at every index, exactly the worker's
value at that grid point. -/
lemma serialLoop_ok_call (we : WorkerEngine) (w : ContourWorker) :
    ∀ (l : List (PFloat × PFloat)) (rs : List PFloat),
      serialLoop we w l = Except.ok rs →
      ∀ k, k < l.length →
        ContourWorker.call we w (l.getD k (PFloat.nan, PFloat.nan))
          = Except.ok (rs.getD k (PFloat.val 0)) := by
  intro l
  induction l with
  | nil =>
    intro rs h k hk
    simp at hk
  | cons p rest ih =>
    intro rs h k hk
    cases hc : ContourWorker.call we w p with
    | error e => simp only [serialLoop, hc] at h; exact Except.noConfusion h
    | ok r =>
      cases ht : serialLoop we w rest with
      | error e => simp only [serialLoop, hc, ht] at h; exact Except.noConfusion h
      | ok rs2 =>
        simp only [serialLoop, hc, ht] at h
        cases h
        cases k with
        | zero => simpa using hc
        | succ k0 =>
          simp only [List.getD_cons_succ]
          exact ih rs2 ht k0 (by simpa using hk)

/-- When every grid point evaluates successfully, the modelled worker pool
finishes every schedule, tagging each completed point with its grid index
and the worker's value there, and completing every scheduled index. -/
lemma parallelStore_ok (we : WorkerEngine) (w : ContourWorker)
    (grid : List (PFloat × PFloat)) (rs : List PFloat)
    (hcall : ∀ k, k < grid.length →
      ContourWorker.call we w (grid.getD k (PFloat.nan, PFloat.nan))
        = Except.ok (rs.getD k (PFloat.val 0))) :
    ∀ sched : List Nat,
      ∃ st, parallelStore we w grid sched = Except.ok st ∧
        (∀ p, p ∈ st → p.1 < grid.length ∧ p.2 = rs.getD p.1 (PFloat.val 0)) ∧
        (∀ k, k ∈ sched → k < grid.length → ∃ r, (k, r) ∈ st) := by
  intro sched
  induction sched with
  | nil => exact ⟨[], rfl, by simp, by simp⟩
  | cons k ks ih =>
    obtain ⟨st, hst, hall, hex⟩ := ih
    by_cases hk : k < grid.length
    · refine ⟨(k, rs.getD k (PFloat.val 0)) :: st, ?_, ?_, ?_⟩
      · simp only [parallelStore, if_pos hk, hcall k hk, hst]
      · intro p hp
        rcases List.mem_cons.mp hp with h1 | h2
        · subst h1
          exact ⟨hk, rfl⟩
        · exact hall p h2
      · intro k2 hk2 hlt
        rcases List.mem_cons.mp hk2 with h1 | h2
        · subst h1
          exact ⟨_, List.mem_cons_self _ _⟩
        · obtain ⟨r, hr⟩ := hex k2 h2 hlt
          exact ⟨r, List.mem_cons_of_mem _ hr⟩
    · refine ⟨st, ?_, hall, ?_⟩
      · simp only [parallelStore, if_neg hk, hst]
      · intro k2 hk2 hlt
        rcases List.mem_cons.mp hk2 with h1 | h2
        · subst h1
          exact absurd hlt hk
        · exact hex k2 h2 hlt

/-- If every store entry keyed `k` carries value `v` and some entry is keyed
`k`, then the first-match lookup finds `(k, v)` — regardless of where in the
completion order the entry sits. -/
lemma find_entry (k : Nat) (v : PFloat) :
    ∀ st : List (Nat × PFloat),
      (∀ p, p ∈ st → p.1 = k → p.2 = v) → (∃ r, (k, r) ∈ st) →
      st.find? (fun p => p.1 == k) = some (k, v) := by
  intro st
  induction st with
  | nil =>
    intro _ hex
    obtain ⟨r, hr⟩ := hex
    cases hr
  | cons p st ih =>
    intro hall hex
    by_cases hp : p.1 = k
    · have hv : p.2 = v := hall p (List.mem_cons_self _ _) hp
      have hpred : (p.1 == k) = true := by simp [hp]
      simp only [List.find?, hpred]
      cases p
      simp only at hp hv
      rw [hp, hv]
    · have hpred : (p.1 == k) = false := by simp [hp]
      simp only [List.find?, hpred]
      apply ih
      · intro q hq hqk
        exact hall q (List.mem_cons_of_mem _ hq) hqk
      · obtain ⟨r, hr⟩ := hex
        rcases List.mem_cons.mp hr with h1 | h2
        · exact absurd (by rw [← h1]) hp
        · exact ⟨r, h2⟩

/-- Collecting the store in submission order reproduces exactly the serial
result list, whatever the completion order was. -/
lemma collectInOrder_eq (n : Nat) (st : List (Nat × PFloat)) (rs : List PFloat)
    (hlen : rs.length = n)
    (hall : ∀ p, p ∈ st → p.1 < n ∧ p.2 = rs.getD p.1 (PFloat.val 0))
    (hex : ∀ k, k < n → ∃ r, (k, r) ∈ st) :
    collectInOrder n st = rs.map some := by
  unfold collectInOrder
  have hcell : ∀ k, k < n →
      st.find? (fun p => p.1 == k) = some (k, rs.getD k (PFloat.val 0)) := by
    intro k hk
    apply find_entry
    · intro p hp hpk
      have hv := (hall p hp).2
      rw [hpk] at hv
      exact hv
    · exact hex k hk
  apply List.ext_getElem?
  intro i
  by_cases hi : i < n
  · rw [List.getElem?_map, List.getElem?_map]
    have hrange : (List.range n)[i]? = some i := by simp [List.getElem?_range, hi]
    rw [hrange]
    have hrs : rs[i]? = some (rs.getD i (PFloat.val 0)) := by
      rw [List.getElem?_eq_getElem (by omega)]
      rw [List.getD_eq_getElem?_getD, List.getElem?_eq_getElem (by omega)]
      rfl
    rw [hrs]
    simp [hcell i hi]
  · rw [List.getElem?_map, List.getElem?_map]
    rw [List.getElem?_eq_none (by simpa using hi), List.getElem?_eq_none (by omega)]
    rfl

/-- `linspace` always yields the requested number of steps. -/
lemma linspace_length (a b : ℚ) (n : Nat) : (linspace a b n).length = n := by
  unfold linspace
  split
  · rw [List.length_map, List.length_range]
  · rw [List.length_map, List.length_range]

/-- The reshaped matrix has the requested number of rows. -/
lemma reshapeAux_length {α : Type} (c : Nat) : ∀ (r : Nat) (l : List α),
    (reshapeAux c r l).length = r := by
  intro r
  induction r with
  | zero => intro l; rfl
  | succ n ih => intro l; simp [reshapeAux, ih]

/-- Every row of the reshaped matrix has the requested number of columns. -/
lemma reshapeAux_rows {α : Type} (c : Nat) : ∀ (r : Nat) (l : List α),
    l.length = r * c → ∀ row ∈ reshapeAux c r l, row.length = c := by
  intro r
  induction r with
  | zero =>
    intro l _ row hrow
    cases hrow
  | succ n ih =>
    intro l hl row hrow
    rw [Nat.succ_mul] at hl
    simp only [reshapeAux] at hrow
    rcases List.mem_cons.mp hrow with h1 | h2
    · subst h1
      rw [List.length_take]
      omega
    · exact ih (l.drop c) (by rw [List.length_drop, hl]; omega) row h2

/-- Cell `(i, j)` of the reshaped matrix is element `i * c + j` of the flat
result list. -/
lemma reshapeAux_cell {α : Type} (c : Nat) (d : α) : ∀ (r : Nat) (l : List α) (i j : Nat),
    i < r → j < c → l.length = r * c →
    ((reshapeAux c r l).getD i []).getD j d = l.getD (i * c + j) d := by
  intro r
  induction r with
  | zero =>
    intro l i j hi
    exact absurd hi (by omega)
  | succ n ih =>
    intro l i j hi hj hl
    rw [Nat.succ_mul] at hl
    cases i with
    | zero =>
      simp only [reshapeAux, List.getD_cons_zero, Nat.zero_mul, Nat.zero_add]
      rw [List.getD_eq_getElem?_getD, List.getD_eq_getElem?_getD, List.getElem?_take]
      rw [if_pos hj]
    | succ i0 =>
      simp only [reshapeAux, List.getD_cons_succ]
      rw [ih (l.drop c) i0 j (by omega) hj (by rw [List.length_drop, hl]; omega)]
      rw [List.getD_eq_getElem?_getD, List.getD_eq_getElem?_getD, List.getElem?_drop]
      have hidx : c + (i0 * c + j) = (i0 + 1) * c + j := by
        rw [Nat.succ_mul]
        omega
      rw [hidx]

/-- The Cartesian grid has one point per pair of steps. -/
lemma cartesian_length {α β : Type} (ys : List β) : ∀ xs : List α,
    (cartesian xs ys).length = xs.length * ys.length := by
  intro xs
  induction xs with
  | nil => simp [cartesian]
  | cons x xs ih =>
    simp only [cartesian, List.length_append, List.length_map, ih, List.length_cons]
    rw [Nat.succ_mul]
    omega

/-- Grid point `i * len₂ + j` of the Cartesian grid is the pair of step `i`
of the first axis and step `j` of the second. -/
lemma cartesian_getD {α β : Type} (da : α) (db : β) (ys : List β) :
    ∀ (xs : List α) (i j : Nat), i < xs.length → j < ys.length →
      (cartesian xs ys).getD (i * ys.length + j) (da, db) = (xs.getD i da, ys.getD j db) := by
  intro xs
  induction xs with
  | nil =>
    intro i j hi
    simp at hi
  | cons x xs ih =>
    intro i j hi hj
    cases i with
    | zero =>
      simp only [cartesian, Nat.zero_mul, Nat.zero_add, List.getD_cons_zero]
      rw [List.getD_eq_getElem?_getD, List.getElem?_append,
          if_pos (by rw [List.length_map]; exact hj)]
      rw [List.getElem?_map, List.getElem?_eq_getElem hj]
      rw [List.getD_eq_getElem?_getD, List.getElem?_eq_getElem hj]
      rfl
    | succ i0 =>
      simp only [cartesian, List.getD_cons_succ]
      rw [List.getD_eq_getElem?_getD, List.getElem?_append_right
            (by rw [List.length_map, Nat.succ_mul]; omega)]
      have hidx : (i0 + 1) * ys.length + j - (ys.map fun y => (x, y)).length
          = i0 * ys.length + j := by
        rw [List.length_map, Nat.succ_mul]
        omega
      rw [hidx, ← List.getD_eq_getElem?_getD]
      exact ih i0 j (by simpa using hi) hj

/-- Reading a mapped step list with the `nan` default yields the underlying
rational step wrapped in `PFloat.val`, inside the bounds. -/
lemma getD_map_val (l : List ℚ) (i : Nat) (h : i < l.length) :
    (l.map PFloat.val).getD i PFloat.nan = PFloat.val (l.getD i 0) := by
  rw [List.getD_eq_getElem?_getD, List.getD_eq_getElem?_getD, List.getElem?_map]
  rw [List.getElem?_eq_getElem h]
  rfl

/-- Reading the serial result list wrapped in `some`, inside the bounds. -/
lemma getD_map_some (l : List PFloat) (k : Nat) (h : k < l.length) :
    (l.map some).getD k none = some (l.getD k (PFloat.val 0)) := by
  rw [List.getD_eq_getElem?_getD, List.getD_eq_getElem?_getD, List.getElem?_map,
      List.getElem?_eq_getElem h]
  rfl

/-- Claim C7: for every two-parameter contour computation whose serial run
succeeds, the parallel strategy — whatever completion order its schedule
imposes, as long as it completes every grid point — returns the identical
triple; the result matrix has shape `(steps1, steps2)`; and cell `(i, j)`
holds exactly the worker's value at grid point `(i, j)`. -/
theorem claimC7 (we : WorkerEngine) (m mb : MState) (logspaceFn : ℚ → ℚ → Nat → List ℚ)
    (param1 p2name : String) (p1min p1max p2min p2max : ℚ) (p1n p2n : Nat)
    (p1log p2log : Bool) (sched : List Nat)
    (out : List ℚ × Option (List PFloat) × List (List (Option PFloat)))
    (hlsf : ∀ a b n, (logspaceFn a b n).length = n)
    (hb : contoursBaseline m = Except.ok mb)
    (hcov : ∀ k, k < p1n * p2n → k ∈ sched)
    (hser : MinuitMinimizer.contours we m logspaceFn param1 p1min p1max p1n
        (some (p2name, p2min, p2max, p2n)) p1log p2log Strategy.serial = Except.ok out) :
    MinuitMinimizer.contours we m logspaceFn param1 p1min p1max p1n
        (some (p2name, p2min, p2max, p2n)) p1log p2log (Strategy.parallel sched)
      = Except.ok out ∧
    out.2.2.length = p1n ∧
    (∀ row ∈ out.2.2, row.length = p2n) ∧
    (∀ i j, i < p1n → j < p2n →
      (out.2.2.getD i []).getD j none
        = Except.toOption
            (ContourWorker.call we
              (mkContourWorker mb (parameterNameToMinuitName param1)
                (some (parameterNameToMinuitName p2name)))
              (PFloat.val ((stepsFor logspaceFn p1log p1min p1max p1n).getD i 0),
               PFloat.val ((stepsFor logspaceFn p2log p2min p2max p2n).getD j 0)))) := by
  have hs1 : (stepsFor logspaceFn p1log p1min p1max p1n).length = p1n := by
    unfold stepsFor
    split
    · exact hlsf _ _ _
    · exact linspace_length _ _ _
  have hs2 : (stepsFor logspaceFn p2log p2min p2max p2n).length = p2n := by
    unfold stepsFor
    split
    · exact hlsf _ _ _
    · exact linspace_length _ _ _
  simp only [MinuitMinimizer.contours, hb, Option.map_some'] at hser
  simp only [runStrategy] at hser
  cases hsl : serialLoop we
      (mkContourWorker mb (parameterNameToMinuitName param1)
        (some (parameterNameToMinuitName p2name)))
      (cartesian ((stepsFor logspaceFn p1log p1min p1max p1n).map PFloat.val)
        ((stepsFor logspaceFn p2log p2min p2max p2n).map PFloat.val)) with
  | error e =>
    rw [hsl] at hser
    exact Except.noConfusion hser
  | ok rs =>
    rw [hsl] at hser
    cases hser
    have hgl : (cartesian ((stepsFor logspaceFn p1log p1min p1max p1n).map PFloat.val)
        ((stepsFor logspaceFn p2log p2min p2max p2n).map PFloat.val)).length = p1n * p2n := by
      rw [cartesian_length, List.length_map, List.length_map, hs1, hs2]
    have hlenrs := serialLoop_ok_length _ _ _ _ hsl
    have hcall := serialLoop_ok_call _ _ _ _ hsl
    obtain ⟨st, hst, hall, hex⟩ :=
      parallelStore_ok we
        (mkContourWorker mb (parameterNameToMinuitName param1)
          (some (parameterNameToMinuitName p2name)))
        (cartesian ((stepsFor logspaceFn p1log p1min p1max p1n).map PFloat.val)
          ((stepsFor logspaceFn p2log p2min p2max p2n).map PFloat.val)) rs hcall sched
    have hcollect : collectInOrder
        (cartesian ((stepsFor logspaceFn p1log p1min p1max p1n).map PFloat.val)
          ((stepsFor logspaceFn p2log p2min p2max p2n).map PFloat.val)).length st
        = rs.map some := by
      apply collectInOrder_eq _ _ _ hlenrs hall
      intro k hk
      exact hex k (hcov k (by rw [← hgl]; exact hk)) hk
    refine ⟨?_, ?_, ?_, ?_⟩
    · simp only [MinuitMinimizer.contours, hb, Option.map_some', runStrategy, hst, hcollect]
    · simp only [reshape2d]
      rw [reshapeAux_length, hs1]
    · intro row hrow
      simp only [reshape2d] at hrow
      have hrc := reshapeAux_rows
        ((stepsFor logspaceFn p2log p2min p2max p2n).map PFloat.val).length
        ((stepsFor logspaceFn p1log p1min p1max p1n).length) (rs.map some)
        (by rw [List.length_map, hlenrs, cartesian_length, List.length_map]) row hrow
      rw [hrc, List.length_map, hs2]
    · intro i j hi hj
      have hi1 : i < (stepsFor logspaceFn p1log p1min p1max p1n).length := by
        rw [hs1]; exact hi
      have hj2 : j < (stepsFor logspaceFn p2log p2min p2max p2n).length := by
        rw [hs2]; exact hj
      have hj2v : j < ((stepsFor logspaceFn p2log p2min p2max p2n).map PFloat.val).length := by
        rw [List.length_map]; exact hj2
      have hi1v : i < ((stepsFor logspaceFn p1log p1min p1max p1n).map PFloat.val).length := by
        rw [List.length_map]; exact hi1
      have hk : i * ((stepsFor logspaceFn p2log p2min p2max p2n).map PFloat.val).length + j
          < rs.length := by
        rw [hlenrs, cartesian_length]
        calc i * ((stepsFor logspaceFn p2log p2min p2max p2n).map PFloat.val).length + j
            < (i + 1) * ((stepsFor logspaceFn p2log p2min p2max p2n).map PFloat.val).length := by
              rw [Nat.succ_mul]; omega
          _ ≤ ((stepsFor logspaceFn p1log p1min p1max p1n).map PFloat.val).length
              * ((stepsFor logspaceFn p2log p2min p2max p2n).map PFloat.val).length := by
              apply Nat.mul_le_mul_right
              omega
      simp only [reshape2d]
      rw [reshapeAux_cell _ _ _ _ i j hi1 hj2v
            (by rw [List.length_map, hlenrs, cartesian_length, List.length_map])]
      rw [getD_map_some _ _ (by rw [List.length_map] at hk ⊢; exact hk)]
      have hcg : (cartesian ((stepsFor logspaceFn p1log p1min p1max p1n).map PFloat.val)
            ((stepsFor logspaceFn p2log p2min p2max p2n).map PFloat.val)).getD
          (i * ((stepsFor logspaceFn p2log p2min p2max p2n).map PFloat.val).length + j)
          (PFloat.nan, PFloat.nan)
          = (PFloat.val ((stepsFor logspaceFn p1log p1min p1max p1n).getD i 0),
             PFloat.val ((stepsFor logspaceFn p2log p2min p2max p2n).getD j 0)) := by
        rw [cartesian_getD _ _ _ _ i j hi1v hj2v, getD_map_val _ _ hi1, getD_map_val _ _ hj2]
      have hck := hcall
        (i * ((stepsFor logspaceFn p2log p2min p2max p2n).map PFloat.val).length + j)
        (by rw [← hlenrs]; exact hk)
      rw [hcg] at hck
      rw [hck]
      rfl

/-- Witness for C7: a concrete two-by-two contour run with a scrambled
parallel completion schedule returns exactly the serial triple. -/
theorem claimC7_witness :
    MinuitMinimizer.contours weOk9 mTwo lsfDemo "a" 0 1 2 (some ("b", 0, 2, 2)) false false
        (Strategy.parallel [3, 1, 2, 0])
      = Except.ok ([0, 1], some [PFloat.val 0, PFloat.val 2],
          [[some (PFloat.val 0), some (PFloat.val 0)],
           [some (PFloat.val 0), some (PFloat.val 0)]]) :=
  (claimC7 weOk9 mTwo mTwo lsfDemo "a" "b" 0 1 0 2 2 2 false false [3, 1, 2, 0]
      ([0, 1], some [PFloat.val 0, PFloat.val 2],
        [[some (PFloat.val 0), some (PFloat.val 0)],
         [some (PFloat.val 0), some (PFloat.val 0)]])
      (by intro a b n; simp [lsfDemo])
      (by with_unfolding_all rfl)
      (by decide)
      (by with_unfolding_all rfl)).1
